import Mathlib

/-
Shallow embedding of src/util.hpp: the coordinate/direction algebra, the
Grid container and the RingBuffer container, together with theorems
checking the specification claims about them.

C++ int is modelled as Int (no claim here exercises 32-bit overflow);
code that throws is modelled with Option (none = the exception);
a heap-allocated T[] buffer is modelled as Int → Option T
(none = a slot never written, whose read would be undefined behaviour).
-/

namespace UtilHpp

/-- The Dir enum of util.hpp: up, down, left, right. -/
inductive Dir
  | up
  | down
  | left
  | right
deriving DecidableEq, Repr

/-- Unary minus on Dir: direction inversion (up↔down, left↔right). -/
def Dir.inv : Dir → Dir
  | .up => .down
  | .down => .up
  | .left => .right
  | .right => .left

/-- The Coord struct: a pair of int coordinates. -/
structure Coord where
  x : Int
  y : Int
deriving DecidableEq, Repr

/-- Binary plus on Coord and Dir: one step in the given direction. -/
def Coord.add (a : Coord) : Dir → Coord
  | .up => ⟨a.x, a.y - 1⟩
  | .down => ⟨a.x, a.y + 1⟩
  | .left => ⟨a.x - 1, a.y⟩
  | .right => ⟨a.x + 1, a.y⟩

/-- Binary minus on Coord (util.hpp): returns the direction d with
b + d = a, and throws "Not a dir" otherwise (modelled as none). -/
def Coord.sub (a b : Coord) : Option Dir :=
  if a.x = b.x then
    if a.y = b.y - 1 then some .up
    else if a.y = b.y + 1 then some .down
    else none
  else if a.y = b.y then
    if a.x = b.x - 1 then some .left
    else if a.x = b.x + 1 then some .right
    else none
  else none

/-- The operation the spec calls direction_between(a, b): the direction
leading from a to b, i.e. the d with a + d = b; computed by the source as
the coordinate difference b - a. -/
def direction_between (a b : Coord) : Option Dir :=
  Coord.sub b a

/-- is_neighbor(Coord a, Coord b) of util.hpp. -/
def is_neighbor (a b : Coord) : Bool :=
  if a.x = b.x then (a.y - b.y).natAbs = 1
  else if a.y = b.y then (a.x - b.x).natAbs = 1
  else false

/-- Global grid width: const int w = 30. -/
def w : Int := 30

/-- Global grid height: const int h = 30. -/
def h : Int := 30

/-- valid(Coord a): both components inside the fixed 30×30 domain. -/
def valid (a : Coord) : Bool :=
  0 ≤ a.x && a.x < w && 0 ≤ a.y && a.y < h

/-- valid generalised to explicit dimensions W × H, as used by claims
stated for a grid of dimensions (W, H); valid = validIn w h. -/
def validIn (W H : Int) (a : Coord) : Bool :=
  0 ≤ a.x && a.x < W && 0 ≤ a.y && a.y < H

/-- CoordRange iterator increment: advance x, wrapping to the next row
when x reaches w. -/
def CoordRange.inc (c : Coord) : Coord :=
  if c.x + 1 = w then ⟨0, c.y + 1⟩ else ⟨c.x + 1, c.y⟩

/-- CoordRange begin(): the iterator at {0,0}. -/
def CoordRange.beginIt : Coord := ⟨0, 0⟩

/-- CoordRange end(): the iterator at {0,h}. -/
def CoordRange.endIt : Coord := ⟨0, h⟩

/-- The sequence of coordinates produced by the C++ range-for over the
global coords object: dereference and increment from begin() until the
iterator equals end().  The fuel only bounds the unrolling;
CoordRange.elems below supplies enough fuel, and fuel-irrelevance is part
of the C8 theorem. -/
def CoordRange.visit : Nat → Coord → List Coord
  | 0, _ => []
  | n + 1, c => if c = CoordRange.endIt then [] else c :: CoordRange.visit n (CoordRange.inc c)

/-- The full enumeration of the 30×30 coordinate range. -/
def CoordRange.elems : List Coord :=
  CoordRange.visit 900 CoordRange.beginIt

/-- Modelled from the spec: the nested-loop enumeration
for y in 0..H-1, for x in 0..W-1 (row-major, y outer, x inner) that the
spec says whole-grid enumeration is equivalent to. -/
def specRowMajor : List Coord :=
  (List.range 30).flatMap fun (y : Nat) =>
    (List.range 30).map fun (x : Nat) => ⟨(x : Int), (y : Int)⟩

/-- Ghost helper: the coordinate at linear (row-major) position n of the
30×30 domain, used to reason about the iterator. -/
def linCoord (n : Nat) : Coord :=
  ⟨((n % 30 : Nat) : Int), ((n / 30 : Nat) : Int)⟩

/-! ## Grid -/

/-- A live Grid object: member dimensions w, h and the backing buffer
new T[w*h], modelled as contents at each array offset (none =
uninitialised or outside the allocation). -/
structure Grid (T : Type) where
  w : Int
  h : Int
  data : Int → Option T

/-- The buffer state produced by the Grid constructor body
std::fill(begin(), end(), init): offsets in [0, w*h) hold init. -/
def Grid.fill (v : T) (W H : Int) : Grid T :=
  ⟨W, H, fun i => if 0 ≤ i ∧ i < W * H then some v else none⟩

/-- Grid(T const& init, int w, int h): allocates new T[w*h] — which
throws std::bad_array_new_length when w*h is negative (modelled as
none) — then fills every cell with init.  No dimension validation is
performed. -/
def Grid.make (v : T) (W H : Int) : Option (Grid T) :=
  if W * H < 0 then none else some (Grid.fill v W H)

/-- The row-major index a.x + w*a.y used by the Grid index operator. -/
def Grid.idx (g : Grid T) (a : Coord) : Int :=
  a.x + g.w * a.y

/-- Reading through the const Grid index operator (the spec calls it
get): data[a.x + w*a.y]. -/
def Grid.get (g : Grid T) (a : Coord) : Option T :=
  g.data (g.idx a)

/-- Writing through the Grid index operator (the spec calls it set):
data[a.x + w*a.y] = v. -/
def Grid.set (g : Grid T) (a : Coord) (v : T) : Grid T :=
  ⟨g.w, g.h, fun i => if i = g.idx a then some v else g.data i⟩

/-- Grid size(): w*h. -/
def Grid.size (g : Grid T) : Int :=
  g.w * g.h

/-- A Grid object at the pointer level, for the move-constructor claim:
data is the member pointer (none = nullptr), w, h the member
dimensions. -/
structure GridObj (T : Type) where
  data : Option (Int → Option T)
  w : Int
  h : Int

/-- GridObj size(): w*h, regardless of the pointer. -/
def GridObj.size (g : GridObj T) : Int :=
  g.w * g.h

/-- The Grid move constructor, whose initializer list is exactly
data(that.data) with body that.data = nullptr: it names only data, so
the members w and h of the new object are left uninitialized; their
indeterminate values are the parameters wIndet, hIndet.  Returns
(moved-to object, moved-from object). -/
def GridObj.moveCtor (that : GridObj T) (wIndet hIndet : Int) : GridObj T × GridObj T :=
  (⟨that.data, wIndet, hIndet⟩, ⟨none, that.w, that.h⟩)

/-- The GridObj view of a live grid (pointer non-null). -/
def Grid.toObj (g : Grid T) : GridObj T :=
  ⟨some g.data, g.w, g.h⟩

/-! ## RingBuffer (value model)

For claims about a single buffer, data models the contents of the
backing new T[capacity_] array directly in the record. -/

/-- RingBuffer: backing buffer contents, capacity_, and the two cursors
begin_ and end_. -/
structure RingBuffer (T : Type) where
  data : Int → Option T
  capacity_ : Int
  begin_ : Int
  end_ : Int

/-- RingBuffer(int capacity_): fresh buffer (contents uninitialised),
begin_ = end_ = 0. -/
def RingBuffer.mkRB (c : Int) : RingBuffer T :=
  ⟨fun _ => none, c, 0, 0⟩

/-- RingBuffer capacity(). -/
def RingBuffer.capacity (r : RingBuffer T) : Int :=
  r.capacity_

/-- RingBuffer size(): end_ - begin_ + (end_ < begin_) * capacity(). -/
def RingBuffer.size (r : RingBuffer T) : Int :=
  r.end_ - r.begin_ + (if r.end_ < r.begin_ then 1 else 0) * r.capacity_

/-- RingBuffer empty(): begin_ == end_. -/
def RingBuffer.isEmpty (r : RingBuffer T) : Bool :=
  r.begin_ = r.end_

/-- RingBuffer front(): data[begin_]. -/
def RingBuffer.front (r : RingBuffer T) : Option T :=
  r.data r.begin_

/-- RingBuffer back(): end_ == 0 ? data[capacity()-1] : data[end_-1]. -/
def RingBuffer.back (r : RingBuffer T) : Option T :=
  if r.end_ = 0 then r.data (r.capacity_ - 1) else r.data (r.end_ - 1)

/-- RingBuffer push_front(x): decrement begin_, wrap below 0 to
capacity()-1, then write x at the new begin_. -/
def RingBuffer.push_front (r : RingBuffer T) (x : T) : RingBuffer T :=
  let b := if r.begin_ - 1 < 0 then r.capacity_ - 1 else r.begin_ - 1
  ⟨fun i => if i = b then some x else r.data i, r.capacity_, b, r.end_⟩

/-- RingBuffer pop_front(): increment begin_, wrap at capacity(). -/
def RingBuffer.pop_front (r : RingBuffer T) : RingBuffer T :=
  ⟨r.data, r.capacity_, if r.begin_ + 1 ≥ r.capacity_ then 0 else r.begin_ + 1, r.end_⟩

/-- RingBuffer push_back(x): write x at end_, increment end_, wrap at
capacity(). -/
def RingBuffer.push_back (r : RingBuffer T) (x : T) : RingBuffer T :=
  ⟨fun i => if i = r.end_ then some x else r.data i, r.capacity_, r.begin_,
   if r.end_ + 1 ≥ r.capacity_ then 0 else r.end_ + 1⟩

/-- RingBuffer pop_back(): decrement end_, wrap below 0 to
capacity()-1. -/
def RingBuffer.pop_back (r : RingBuffer T) : RingBuffer T :=
  ⟨r.data, r.capacity_, r.begin_, if r.end_ - 1 < 0 then r.capacity_ - 1 else r.end_ - 1⟩

/-- The RingBuffer index operator (the spec calls it at(i)):
data[(begin_ + i) % capacity_], with C++ truncated % (Int.tmod). -/
def RingBuffer.atIdx (r : RingBuffer T) (i : Int) : Option T :=
  r.data ((r.begin_ + i).tmod r.capacity_)

/-- push_back of a whole list, left to right. -/
def pushBackAll (r : RingBuffer T) (vs : List T) : RingBuffer T :=
  vs.foldl RingBuffer.push_back r

/-- The four mutating RingBuffer operations, for reachability claims. -/
inductive RBOp (T : Type)
  | pushF (x : T)
  | pushB (x : T)
  | popF
  | popB

/-- Apply one RingBuffer operation. -/
def applyOp (r : RingBuffer T) : RBOp T → RingBuffer T
  | .pushF x => r.push_front x
  | .pushB x => r.push_back x
  | .popF => r.pop_front
  | .popB => r.pop_back

/-- Run a sequence of RingBuffer operations from a state. -/
def runOps (r : RingBuffer T) (ops : List (RBOp T)) : RingBuffer T :=
  ops.foldl applyOp r

/-- Cursor well-formedness: both cursors lie in [0, capacity_).  Holds
for every state reachable from construction (proved below). -/
def RingBuffer.wf (r : RingBuffer T) : Prop :=
  0 ≤ r.begin_ ∧ r.begin_ < r.capacity_ ∧ 0 ≤ r.end_ ∧ r.end_ < r.capacity_

/-! ## RingBuffer (heap model)

The copy-constructor claim is about aliasing between two objects, so here
the data member is an explicit pointer (a buffer id) into a heap mapping
buffer ids to buffer contents. -/

/-- A heap: buffer id ↦ offset ↦ contents. -/
def Heap (T : Type) :=
  Nat → Int → Option T

/-- Write x at offset i of buffer b. -/
def Heap.write (hp : Heap T) (b : Nat) (i : Int) (x : T) : Heap T :=
  fun b' i' => if b' = b ∧ i' = i then some x else hp b' i'

/-- A RingBuffer object at the pointer level: data is the buffer id the
member pointer refers to. -/
structure RB (T : Type) where
  data : Nat
  capacity_ : Int
  begin_ : Int
  end_ : Int

/-- The RingBuffer copy constructor: its initializer list sets
data(that.data) — a POINTER copy, no new allocation — then the body
runs std::copy(that.data, that.data+capacity_, data), copying the buffer
onto itself.  Returns the updated heap and the new object. -/
def RB.copyCtor (hp : Heap T) (that : RB T) : Heap T × RB T :=
  let r2 : RB T := ⟨that.data, that.capacity_, that.begin_, that.end_⟩
  let hp' : Heap T := fun b i =>
    if b = r2.data ∧ 0 ≤ i ∧ i < that.capacity_ then hp that.data i else hp b i
  (hp', r2)

/-- RingBuffer front() in the heap model. -/
def RB.front (hp : Heap T) (r : RB T) : Option T :=
  hp r.data r.begin_

/-- The RingBuffer index operator in the heap model. -/
def RB.atIdx (hp : Heap T) (r : RB T) (i : Int) : Option T :=
  hp r.data ((r.begin_ + i).tmod r.capacity_)

/-- RingBuffer size() in the heap model. -/
def RB.size (r : RB T) : Int :=
  r.end_ - r.begin_ + (if r.end_ < r.begin_ then 1 else 0) * r.capacity_

/-- RingBuffer push_front(x) in the heap model. -/
def RB.push_front (hp : Heap T) (r : RB T) (x : T) : Heap T × RB T :=
  let b := if r.begin_ - 1 < 0 then r.capacity_ - 1 else r.begin_ - 1
  (hp.write r.data b x, ⟨r.data, r.capacity_, b, r.end_⟩)

/-- RingBuffer push_back(x) in the heap model. -/
def RB.push_back (hp : Heap T) (r : RB T) (x : T) : Heap T × RB T :=
  (hp.write r.data r.end_ x,
   ⟨r.data, r.capacity_, r.begin_, if r.end_ + 1 ≥ r.capacity_ then 0 else r.end_ + 1⟩)

/-- RingBuffer pop_front() in the heap model (no heap write). -/
def RB.pop_front (r : RB T) : RB T :=
  ⟨r.data, r.capacity_, if r.begin_ + 1 ≥ r.capacity_ then 0 else r.begin_ + 1, r.end_⟩

/-- A capacity-2 RingBuffer holding the single element 5 (the state after
constructing with capacity 2 and pushing 5 at the back); used by the C7
witness. -/
def rC7 : RingBuffer Int :=
  ⟨fun i => if i = 0 then some 5 else none, 2, 0, 1⟩

/-! ## Helper lemmas -/

lemma validIn_iff {W H : Int} {a : Coord} :
    validIn W H a = true ↔ 0 ≤ a.x ∧ a.x < W ∧ 0 ≤ a.y ∧ a.y < H := by
  simp [validIn, and_assoc]

lemma rowmajor_bounds {W H x y : Int} (hx : 0 ≤ x) (hx2 : x < W) (hy : 0 ≤ y) (hy2 : y < H) :
    0 ≤ x + W * y ∧ x + W * y < W * H := by
  have hW : 0 < W := lt_of_le_of_lt hx hx2
  have h1 : W * y ≤ W * (H - 1) := mul_le_mul_of_nonneg_left (by omega) (by omega)
  have h2 : 0 ≤ W * y := mul_nonneg (by omega) hy
  have h3 : W * (H - 1) = W * H - W := by ring
  omega

lemma rowmajor_inj {W H : Int} {a b : Coord} (ha : validIn W H a = true)
    (hb : validIn W H b = true) (hab : a.x + W * a.y = b.x + W * b.y) : a = b := by
  rw [validIn_iff] at ha hb
  obtain ⟨hax, hax2, hay, hay2⟩ := ha
  obtain ⟨hbx, hbx2, hby, hby2⟩ := hb
  have hW : 0 < W := lt_of_le_of_lt hax hax2
  have h1 : (a.x + W * a.y) % W = a.x := by
    rw [Int.add_mul_emod_self_left]
    exact Int.emod_eq_of_lt hax hax2
  have h2 : (b.x + W * b.y) % W = b.x := by
    rw [Int.add_mul_emod_self_left]
    exact Int.emod_eq_of_lt hbx hbx2
  rw [hab, h2] at h1
  have hy : a.y = b.y := by
    have h3 : W * a.y = W * b.y := by omega
    exact mul_left_cancel₀ (by omega) h3
  obtain ⟨ax, ay⟩ := a
  obtain ⟨bx, bq⟩ := b
  simp_all

lemma linCoord_inc (n : Nat) : CoordRange.inc (linCoord n) = linCoord (n + 1) := by
  dsimp only [CoordRange.inc, linCoord, w]
  split_ifs with hc <;> simp only [Coord.mk.injEq] <;> constructor <;> omega

lemma linCoord_ne_end (n : Nat) (hn : n < 900) : linCoord n ≠ CoordRange.endIt := by
  unfold linCoord CoordRange.endIt h
  simp only [ne_eq, Coord.mk.injEq, not_and]
  intro h1 h2
  omega

lemma visit_end (m : Nat) : CoordRange.visit m CoordRange.endIt = [] := by
  cases m <;> simp [CoordRange.visit]

lemma visit_linCoord (k : Nat) : ∀ n, n + k = 900 →
    CoordRange.visit k (linCoord n) = (List.range k).map fun j => linCoord (n + j) := by
  induction k with
  | zero => intro n hn; simp [CoordRange.visit]
  | succ m ih =>
    intro n hn
    rw [CoordRange.visit, if_neg (linCoord_ne_end n (by omega)), linCoord_inc,
        ih (n + 1) (by omega), List.range_succ_eq_map]
    simp only [List.map_cons, List.map_map, Nat.add_zero]
    congr 1
    apply List.map_congr_left
    intro a _
    simp only [Function.comp]
    congr 1
    omega

lemma visit_fuel (k : Nat) : ∀ n extra, n + k = 900 →
    CoordRange.visit (k + extra) (linCoord n) = CoordRange.visit k (linCoord n) := by
  induction k with
  | zero =>
    intro n extra hn
    have hend : linCoord n = CoordRange.endIt := by
      have hn900 : n = 900 := by omega
      subst hn900
      rfl
    rw [hend, visit_end, visit_end]
  | succ m ih =>
    intro n extra hn
    rw [show m + 1 + extra = (m + extra) + 1 from by omega]
    rw [CoordRange.visit, CoordRange.visit,
        if_neg (linCoord_ne_end n (by omega)), linCoord_inc, ih (n + 1) extra (by omega),
        if_neg (linCoord_ne_end n (by omega))]

lemma beginIt_eq : CoordRange.beginIt = linCoord 0 := rfl

lemma elems_eq : CoordRange.elems = (List.range 900).map linCoord := by
  unfold CoordRange.elems
  rw [beginIt_eq, visit_linCoord 900 0 rfl]
  simp

lemma flatMap_range_succ {α : Type} (f : Nat → List α) (m : Nat) :
    (List.range (m + 1)).flatMap f = (List.range m).flatMap f ++ f m := by
  rw [List.range_succ, List.flatMap_append]
  simp

lemma chunk (k : Nat) (hk : k ≤ 30) :
    (List.range (30 * k)).map linCoord
      = (List.range k).flatMap fun (y : Nat) =>
          (List.range 30).map fun (x : Nat) => (⟨(x : Int), (y : Int)⟩ : Coord) := by
  induction k with
  | zero => simp
  | succ m ih =>
    rw [show 30 * (m + 1) = 30 * m + 30 from by ring, List.range_add, List.map_append,
        ih (by omega), flatMap_range_succ, List.map_map]
    congr 1
    apply List.map_congr_left
    intro a ha
    simp only [List.mem_range] at ha
    simp only [Function.comp, linCoord, Coord.mk.injEq]
    constructor <;> omega

lemma specRowMajor_eq : specRowMajor = (List.range 900).map linCoord := by
  unfold specRowMajor
  rw [show (900 : Nat) = 30 * 30 from rfl, chunk 30 le_rfl]

lemma emod_two_windows {a c : Int} (h0 : 0 ≤ a) (hc : 0 < c) (h2 : a < 2 * c) :
    a % c = if a < c then a else a - c := by
  split_ifs with hlt
  · exact Int.emod_eq_of_lt h0 hlt
  · rw [← Int.emod_sub_cancel a c]
    exact Int.emod_eq_of_lt (by omega) (by omega)

lemma size_cases (r : RingBuffer T) :
    (r.end_ < r.begin_ ∧ r.size = r.end_ - r.begin_ + r.capacity_) ∨
    (r.begin_ ≤ r.end_ ∧ r.size = r.end_ - r.begin_) := by
  unfold RingBuffer.size
  rcases lt_or_le r.end_ r.begin_ with hc | hc
  · left
    rw [if_pos hc]
    exact ⟨hc, by ring⟩
  · right
    rw [if_neg (not_lt.mpr hc)]
    exact ⟨hc, by ring⟩

lemma pushBackAll_from (vs : List T) : ∀ (K j : Int) (d : Int → Option T),
    0 ≤ j → j < K → j + vs.length ≤ K →
    pushBackAll ⟨d, K, 0, j⟩ vs =
      ⟨fun i => if j ≤ i ∧ i < j + vs.length then vs.get? (i - j).toNat else d i,
       K, 0, if j + (vs.length : Int) = K then 0 else j + vs.length⟩ := by
  induction vs with
  | nil =>
    intro K j d hj0 hjK hlen
    simp only [pushBackAll, List.foldl_nil, List.length_nil, Nat.cast_zero, Int.add_zero,
      RingBuffer.mk.injEq]
    refine ⟨?_, trivial, trivial, ?_⟩
    · funext i
      rw [if_neg (by omega)]
    · rw [if_neg (by omega)]
  | cons v rest ih =>
    intro K j d hj0 hjK hlen
    simp only [List.length_cons, Nat.cast_add, Nat.cast_one] at hlen
    simp only [pushBackAll, List.foldl_cons]
    show pushBackAll ((⟨d, K, 0, j⟩ : RingBuffer T).push_back v) rest = _
    unfold RingBuffer.push_back
    dsimp only
    by_cases hjK1 : j + 1 = K
    · have hrest : rest = [] := by
        have hr : (rest.length : Int) = 0 := by omega
        simpa using hr
      subst hrest
      simp only [pushBackAll, List.foldl_nil, List.length_cons, List.length_nil,
        Nat.cast_add, Nat.cast_zero, Nat.cast_one, Int.zero_add, RingBuffer.mk.injEq]
      refine ⟨?_, trivial, trivial, ?_⟩
      · funext i
        by_cases h2 : i = j
        · subst h2
          rw [if_pos rfl, if_pos (by omega)]
          simp
        · rw [if_neg h2, if_neg (by omega)]
      · rw [if_pos (by omega), if_pos (by omega)]
    · rw [if_neg (by omega)]
      rw [ih K (j + 1) _ (by omega) (by omega) (by omega)]
      simp only [List.length_cons, Nat.cast_add, Nat.cast_one, RingBuffer.mk.injEq]
      refine ⟨?_, trivial, trivial, ?_⟩
      · funext i
        by_cases h1 : j + 1 ≤ i ∧ i < j + 1 + rest.length
        · rw [if_pos h1, if_pos (by omega)]
          have hn : (i - j).toNat = (i - (j + 1)).toNat + 1 := by omega
          rw [hn, List.get?_cons_succ]
        · rw [if_neg h1]
          by_cases h2 : i = j
          · subst h2
            rw [if_pos rfl, if_pos (by omega)]
            simp
          · rw [if_neg h2, if_neg (by omega)]
      · split_ifs with hA hB <;> omega

lemma pushBackAll_mkRB (vs : List T) (K : Int) (h0 : 0 < K) (hlen : (vs.length : Int) ≤ K) :
    pushBackAll (RingBuffer.mkRB K) vs =
      ⟨fun i => if 0 ≤ i ∧ i < (vs.length : Int) then vs.get? i.toNat else none,
       K, 0, if (vs.length : Int) = K then 0 else vs.length⟩ := by
  have hmain := pushBackAll_from vs K 0 (fun _ => none) le_rfl h0 (by omega)
  simpa using hmain

lemma wf_applyOp (r : RingBuffer T) (op : RBOp T) (hr : r.wf) : (applyOp r op).wf := by
  obtain ⟨h1, h2, h3, h4⟩ := hr
  cases op <;>
    unfold applyOp RingBuffer.push_front RingBuffer.push_back RingBuffer.pop_front
      RingBuffer.pop_back RingBuffer.wf <;>
    dsimp only <;>
    refine ⟨?_, ?_, ?_, ?_⟩ <;> (try split_ifs) <;> omega

lemma wf_runOps (ops : List (RBOp T)) : ∀ r : RingBuffer T, r.wf → (runOps r ops).wf := by
  induction ops with
  | nil => intro r hr; simpa [runOps] using hr
  | cons op rest ih =>
    intro r hr
    show (runOps (applyOp r op) rest).wf
    exact ih _ (wf_applyOp r op hr)

lemma cap_applyOp (r : RingBuffer T) (op : RBOp T) : (applyOp r op).capacity_ = r.capacity_ := by
  cases op <;> rfl

lemma cap_runOps (ops : List (RBOp T)) : ∀ r : RingBuffer T,
    (runOps r ops).capacity_ = r.capacity_ := by
  induction ops with
  | nil => intro r; rfl
  | cons op rest ih =>
    intro r
    show (runOps (applyOp r op) rest).capacity_ = _
    rw [ih, cap_applyOp]

lemma size_lt_of_wf (r : RingBuffer T) (hr : r.wf) : r.size < r.capacity_ := by
  obtain ⟨h1, h2, h3, h4⟩ := hr
  rcases size_cases r with ⟨hlt, hs⟩ | ⟨hle, hs⟩ <;> omega

/-! ## Claim theorems -/

/-- Claim C1: the claim says copy construction yields an independent deep
copy, but the copy constructor initialises data(that.data), sharing the
backing buffer.  Evaluation at the failing input: after r of capacity 2
holds the single element 5, a copy r2 shares the data pointer of r, and
running pop_front and push_front(7) on r2 changes front() of r from
some 5 to some 7 — r is not independent of r2. -/
theorem C1_ring_buffer_copy_ctor_shares_buffer :
    let hp0 : Heap Int := fun _ _ => none
    let r0 : RB Int := ⟨0, 2, 0, 0⟩
    let s1 := RB.push_back hp0 r0 5
    let s2 := RB.copyCtor s1.1 s1.2
    let r2a := RB.pop_front s2.2
    let s3 := RB.push_front s2.1 r2a 7
    s2.2.data = s1.2.data ∧
    RB.front s1.1 s1.2 = some 5 ∧
    RB.front s3.1 s1.2 = some 7 := by
  exact ⟨rfl, rfl, rfl⟩

/-- Claim C2: the claim says move construction transfers the buffer
together with width and height and leaves the source validly empty, but
the move constructor initialises only data, leaving w and h of the
destination uninitialized (indeterminate, here instantiated to 0) and
leaving the source with its old dimensions and a null pointer, so the
source still reports size() = 900. -/
theorem C2_grid_move_ctor_drops_dimensions :
    let g : GridObj Int := (Grid.fill (0 : Int) 30 30).toObj
    let p := GridObj.moveCtor g 0 0
    g.size = 900 ∧ p.1.size = 0 ∧ p.2.data = none ∧ p.2.size = 900 := by
  exact ⟨rfl, rfl, rfl, rfl⟩

/-- Claim C3 counterexample: constructing a Grid with the non-positive
width 0 (and height 5) succeeds and produces a Grid object, contradicting
the claim that non-positive dimensions fail. -/
theorem C3_counterexample_zero_width_succeeds :
    (0 : Int) ≤ 0 ∧ (Grid.make (7 : Int) 0 5).isSome = true := by
  exact ⟨by decide, rfl⟩

/-- Claim C3 as amended: Grid construction performs no dimension
validation; it fails (std::bad_array_new_length from the array new)
exactly when w*h is negative, and any dimensions with w*h ≥ 0 —
including non-positive ones such as w = 0 or both negative — produce a
Grid object. -/
theorem C3_make_fails_iff_negative_product (v : T) (W H : Int) :
    Grid.make v W H = none ↔ W * H < 0 := by
  unfold Grid.make
  split_ifs with hw <;> simp [hw]

/-- Claim C4: pushing K-1 values at the back of a fresh RingBuffer of
capacity K ≥ 1 gives size() = K-1, at(i) = the i-th value for every
0 ≤ i < K-1, and (when K ≥ 2) front() = the first and back() = the last
value; moreover the concrete capacity-4 scenario push_back(1),
push_back(2), push_front(0) yields size() = 3 and at = 0,1,2. -/
theorem C4_push_back_sequence (K : Int) (vs : List T) (hK : 1 ≤ K)
    (hlen : (vs.length : Int) = K - 1) :
    ((pushBackAll (RingBuffer.mkRB K) vs).size = K - 1 ∧
     (∀ i : Int, 0 ≤ i → i < K - 1 →
        (pushBackAll (RingBuffer.mkRB K) vs).atIdx i = vs.get? i.toNat) ∧
     (2 ≤ K → (pushBackAll (RingBuffer.mkRB K) vs).front = vs.get? 0 ∧
        (pushBackAll (RingBuffer.mkRB K) vs).back = vs.get? (K - 2).toNat)) ∧
    ((((RingBuffer.mkRB (T := Int) 4).push_back 1).push_back 2).push_front 0).size = 3 ∧
    ((((RingBuffer.mkRB (T := Int) 4).push_back 1).push_back 2).push_front 0).atIdx 0 = some 0 ∧
    ((((RingBuffer.mkRB (T := Int) 4).push_back 1).push_back 2).push_front 0).atIdx 1 = some 1 ∧
    ((((RingBuffer.mkRB (T := Int) 4).push_back 1).push_back 2).push_front 0).atIdx 2 = some 2 := by
  have hmk := pushBackAll_mkRB vs K (by omega) (by omega)
  refine ⟨⟨?_, ?_, ?_⟩, by decide, by decide, by decide, by decide⟩
  · rw [hmk]
    unfold RingBuffer.size
    dsimp only
    rw [hlen, if_neg (by omega), if_neg (by omega)]
    ring
  · intro i h0 h1
    rw [hmk]
    unfold RingBuffer.atIdx
    dsimp only
    rw [show (0 : Int) + i = i from by ring]
    rw [Int.tmod_eq_emod (by omega) (by omega), Int.emod_eq_of_lt h0 (by omega)]
    rw [if_pos ⟨h0, by omega⟩]
  · intro h2
    constructor
    · rw [hmk]
      unfold RingBuffer.front
      dsimp only
      rw [if_pos (show (0 : Int) ≤ 0 ∧ (0 : Int) < vs.length by constructor <;> omega)]
      rfl
    · rw [hmk]
      unfold RingBuffer.back
      dsimp only
      rw [hlen]
      rw [show (if (K - 1 : Int) = K then (0 : Int) else K - 1) = K - 1 from if_neg (by omega)]
      rw [if_neg (show ¬(K - 1 : Int) = 0 from by omega)]
      rw [show (K - 1 - 1 : Int) = K - 2 from by ring]
      rw [if_pos (show (0 : Int) ≤ K - 2 ∧ (K - 2 : Int) < K - 1 by constructor <;> omega)]

/-- Witness for C4 at K = 4 and values 10, 20, 30. -/
theorem C4_push_back_sequence_witness :
    (1 : Int) ≤ 4 ∧ ((([10, 20, 30] : List Int).length : Int) = 4 - 1) ∧
    (pushBackAll (RingBuffer.mkRB 4) ([10, 20, 30] : List Int)).size = 3 ∧
    (pushBackAll (RingBuffer.mkRB 4) ([10, 20, 30] : List Int)).atIdx 1 = some 20 ∧
    (pushBackAll (RingBuffer.mkRB 4) ([10, 20, 30] : List Int)).front = some 10 ∧
    (pushBackAll (RingBuffer.mkRB 4) ([10, 20, 30] : List Int)).back = some 30 := by
  have hmain := C4_push_back_sequence 4 ([10, 20, 30] : List Int) (by decide) (by decide)
  refine ⟨by decide, by decide, ?_, ?_, ?_, ?_⟩
  · have hs := hmain.1.1
    simpa using hs
  · have ha := hmain.1.2.1 1 (by decide) (by decide)
    simpa using ha
  · have hf := (hmain.1.2.2 (by decide)).1
    simpa using hf
  · have hb := (hmain.1.2.2 (by decide)).2
    simpa using hb

/-- Claim C5: for every valid coordinate c and direction d with c + d
valid, direction_between(c, c + d) returns d. -/
theorem C5_direction_between_of_add (c : Coord) (d : Dir)
    (h1 : valid c = true) (h2 : valid (c.add d) = true) :
    direction_between c (c.add d) = some d := by
  cases d <;> simp [direction_between, Coord.sub, Coord.add] <;> omega

/-- Witness for C5 at c = (0,0), d = down. -/
theorem C5_direction_between_of_add_witness :
    valid ⟨0, 0⟩ = true ∧ valid (Coord.add ⟨0, 0⟩ .down) = true ∧
    direction_between ⟨0, 0⟩ (Coord.add ⟨0, 0⟩ .down) = some .down := by
  exact ⟨by decide, by decide, C5_direction_between_of_add ⟨0, 0⟩ .down (by decide) (by decide)⟩

/-- Claim C6: direction_between(a, b) throws its "Not a dir" error
(returns none in the model) exactly when a and b are not grid-adjacent —
equal or at Manhattan distance different from 1, diagonals included —
and returns a direction exactly when they are adjacent (is_neighbor). -/
theorem C6_direction_between_none_iff_not_adjacent (a b : Coord) :
    (direction_between a b = none ↔
      (a = b ∨ (a.x - b.x).natAbs + (a.y - b.y).natAbs ≠ 1)) ∧
    ((direction_between a b).isSome ↔ is_neighbor a b = true) := by
  obtain ⟨ax, ay⟩ := a
  obtain ⟨bx, bq⟩ := b
  constructor
  · simp only [direction_between, Coord.sub, Coord.mk.injEq]
    split_ifs <;> simp <;> omega
  · simp only [direction_between, Coord.sub, is_neighbor]
    split_ifs <;> simp <;> omega

/-- Claim C7: on any reachable RingBuffer state (well-formed cursors)
with size() < capacity(), push_front(x) followed by pop_front() restores
the logical buffer exactly: the same size() and the same at(i) for every
0 ≤ i < size(). -/
theorem C7_push_front_pop_front_roundtrip (r : RingBuffer T) (x : T) (hwf : r.wf)
    (hsz : r.size < r.capacity) :
    ((r.push_front x).pop_front).size = r.size ∧
    ∀ i : Int, 0 ≤ i → i < r.size → ((r.push_front x).pop_front).atIdx i = r.atIdx i := by
  obtain ⟨hb0, hb1, he0, he1⟩ := hwf
  have hcap : 0 < r.capacity_ := by omega
  unfold RingBuffer.capacity at hsz
  have hrestore : (if (if r.begin_ - 1 < 0 then r.capacity_ - 1 else r.begin_ - 1) + 1 ≥ r.capacity_
      then 0 else (if r.begin_ - 1 < 0 then r.capacity_ - 1 else r.begin_ - 1) + 1) = r.begin_ := by
    split_ifs <;> omega
  constructor
  · unfold RingBuffer.pop_front RingBuffer.push_front RingBuffer.size
    dsimp only
    rw [hrestore]
  · intro i hi0 hi1
    unfold RingBuffer.pop_front RingBuffer.push_front RingBuffer.atIdx
    dsimp only
    rw [hrestore]
    rw [if_neg ?hne]
    case hne =>
      have htm : (r.begin_ + i).tmod r.capacity_ = (r.begin_ + i) % r.capacity_ :=
        Int.tmod_eq_emod (by omega) (by omega)
      rcases size_cases r with ⟨hlt, hs⟩ | ⟨hle, hs⟩ <;> rw [hs] at hsz hi1 <;>
        rw [htm, emod_two_windows (by omega) hcap (by omega)] <;> split_ifs <;> omega

/-- Witness for C7 on the capacity-2 buffer holding one element. -/
theorem C7_push_front_pop_front_roundtrip_witness :
    rC7.wf ∧ rC7.size < rC7.capacity ∧
    ((rC7.push_front 7).pop_front).size = rC7.size ∧
    ((rC7.push_front 7).pop_front).atIdx 0 = rC7.atIdx 0 := by
  have hwf : rC7.wf := ⟨by decide, by decide, by decide, by decide⟩
  have hsz : rC7.size < rC7.capacity := by decide
  have hmain := C7_push_front_pop_front_roundtrip rC7 7 hwf hsz
  exact ⟨hwf, hsz, hmain.1, hmain.2 0 (by decide) (by decide)⟩

/-- Claim C8: iterating the coordinate range from begin() to end()
yields exactly the row-major nested-loop sequence (y outer, x inner),
hence 900 = W*H coordinates, pairwise distinct, all inside the valid
domain; extra fuel does not extend the sequence (the iteration
terminates at end()), and restarting it — a pure computation from the
constant begin() — reproduces the same list. -/
theorem C8_coord_range_enumeration :
    CoordRange.elems = specRowMajor ∧
    CoordRange.elems.length = 900 ∧
    CoordRange.elems.Nodup ∧
    (∀ c ∈ CoordRange.elems, valid c = true) ∧
    CoordRange.visit 901 CoordRange.beginIt = CoordRange.elems := by
  refine ⟨by rw [elems_eq, specRowMajor_eq], by rw [elems_eq]; simp, ?_, ?_, ?_⟩
  · rw [elems_eq]
    refine List.Nodup.map_on ?_ (List.nodup_range 900)
    intro x hx y hy hxy
    simp only [List.mem_range] at hx hy
    simp only [linCoord, Coord.mk.injEq] at hxy
    omega
  · rw [elems_eq]
    intro c hc
    simp only [List.mem_map, List.mem_range] at hc
    obtain ⟨n, hn, rfl⟩ := hc
    simp only [valid, linCoord, w, h, Bool.and_eq_true, decide_eq_true_eq]
    refine ⟨⟨⟨?_, ?_⟩, ?_⟩, ?_⟩ <;> omega
  · unfold CoordRange.elems
    rw [beginIt_eq, show (901 : Nat) = 900 + 1 from rfl, visit_fuel 900 0 1 rfl]

/-- Claim C9: a Grid constructed with value v and dimensions (W, H) has
size() = W*H and get(c) = v at every valid coordinate; after set(c, x),
get(c) = x while get at any other valid coordinate is unchanged. -/
theorem C9_grid_init_and_set_frame {T : Type} (W H : Int) (v : T) (c c' : Coord) (x : T)
    (hc : validIn W H c = true) (hc' : validIn W H c' = true) :
    Grid.make v W H = some (Grid.fill v W H) ∧
    (Grid.fill v W H).size = W * H ∧
    (Grid.fill v W H).get c = some v ∧
    ((Grid.fill v W H).set c x).get c = some x ∧
    (c' ≠ c → ((Grid.fill v W H).set c x).get c' = (Grid.fill v W H).get c') := by
  have hcb := validIn_iff.mp hc
  obtain ⟨hx1, hx2, hy1, hy2⟩ := hcb
  have hW : 0 < W := lt_of_le_of_lt hx1 hx2
  have hH : 0 < H := lt_of_le_of_lt hy1 hy2
  have hbnd := rowmajor_bounds hx1 hx2 hy1 hy2
  refine ⟨?_, rfl, ?_, ?_, ?_⟩
  · unfold Grid.make
    rw [if_neg]
    push_neg
    exact mul_nonneg (by omega) (by omega)
  · unfold Grid.get Grid.fill Grid.idx
    simp only
    rw [if_pos hbnd]
  · unfold Grid.get Grid.set Grid.idx
    simp
  · intro hne
    unfold Grid.get Grid.set Grid.idx
    simp only
    rw [if_neg]
    intro heq
    exact hne (rowmajor_inj hc' hc heq)

/-- Witness for C9 on a 2×2 grid of zeros, writing 7 at (0,0). -/
theorem C9_grid_init_and_set_frame_witness :
    validIn 2 2 ⟨0, 0⟩ = true ∧ validIn 2 2 ⟨1, 1⟩ = true ∧
    (Grid.make (0 : Int) 2 2 = some (Grid.fill 0 2 2) ∧
     (Grid.fill (0 : Int) 2 2).size = 2 * 2 ∧
     (Grid.fill (0 : Int) 2 2).get ⟨0, 0⟩ = some 0 ∧
     ((Grid.fill (0 : Int) 2 2).set ⟨0, 0⟩ 7).get ⟨0, 0⟩ = some 7 ∧
     ((⟨1, 1⟩ : Coord) ≠ ⟨0, 0⟩ →
      ((Grid.fill (0 : Int) 2 2).set ⟨0, 0⟩ 7).get ⟨1, 1⟩ =
        (Grid.fill (0 : Int) 2 2).get ⟨1, 1⟩)) := by
  exact ⟨by decide, by decide,
    C9_grid_init_and_set_frame 2 2 0 ⟨0, 0⟩ ⟨1, 1⟩ 7 (by decide) (by decide)⟩

/-- Claim C10: after exactly K push_back calls on a fresh RingBuffer of
capacity K ≥ 1 the back cursor wraps to equal the front cursor, so
empty() is true and size() is 0 although every slot holds a pushed
element; and in every state reachable from construction by pushes and
pops, size() never returns K. -/
theorem C10_full_buffer_indistinguishable_from_empty (K : Int) (hK : 1 ≤ K) :
    (∀ vs : List T, (vs.length : Int) = K →
       (pushBackAll (RingBuffer.mkRB K) vs).end_ = (pushBackAll (RingBuffer.mkRB K) vs).begin_ ∧
       (pushBackAll (RingBuffer.mkRB K) vs).isEmpty = true ∧
       (pushBackAll (RingBuffer.mkRB K) vs).size = 0 ∧
       (∀ i : Int, 0 ≤ i → i < K →
          (pushBackAll (RingBuffer.mkRB K) vs).data i = vs.get? i.toNat)) ∧
    (∀ ops : List (RBOp T), (runOps (RingBuffer.mkRB K) ops).size ≠ K) := by
  constructor
  · intro vs hlen
    have hmk := pushBackAll_mkRB vs K (by omega) (by omega)
    rw [hmk]
    refine ⟨?_, ?_, ?_, ?_⟩
    · dsimp only
      rw [hlen, if_pos rfl]
    · unfold RingBuffer.isEmpty
      dsimp only
      rw [hlen, if_pos rfl]
      decide
    · unfold RingBuffer.size
      dsimp only
      rw [hlen, if_pos rfl]
      norm_num
    · intro i h0 h1
      dsimp only
      rw [if_pos ⟨h0, by omega⟩]
  · intro ops
    have hwfmk : (RingBuffer.mkRB (T := T) K).wf := by
      unfold RingBuffer.wf RingBuffer.mkRB
      dsimp only
      exact ⟨le_rfl, by omega, le_rfl, by omega⟩
    have hwf : (runOps (RingBuffer.mkRB (T := T) K) ops).wf := wf_runOps ops _ hwfmk
    have hcap := cap_runOps ops (RingBuffer.mkRB (T := T) K)
    have hsz := size_lt_of_wf _ hwf
    rw [hcap] at hsz
    have hcapK : (RingBuffer.mkRB (T := T) K).capacity_ = K := rfl
    rw [hcapK] at hsz
    omega

/-- Witness for C10 at K = 3 with pushes 4, 5, 6 and one further
operation. -/
theorem C10_full_buffer_indistinguishable_from_empty_witness :
    (1 : Int) ≤ 3 ∧ ((([4, 5, 6] : List Int).length : Int) = 3) ∧
    (pushBackAll (RingBuffer.mkRB 3) ([4, 5, 6] : List Int)).isEmpty = true ∧
    (pushBackAll (RingBuffer.mkRB 3) ([4, 5, 6] : List Int)).size = 0 ∧
    (pushBackAll (RingBuffer.mkRB 3) ([4, 5, 6] : List Int)).data 0 = some 4 ∧
    (runOps (RingBuffer.mkRB (T := Int) 3) [RBOp.pushB 9]).size ≠ 3 := by
  have hmain := C10_full_buffer_indistinguishable_from_empty (T := Int) 3 (by decide)
  have hfull := hmain.1 [4, 5, 6] (by decide)
  refine ⟨by decide, by decide, hfull.2.1, hfull.2.2.1, ?_, hmain.2 [RBOp.pushB 9]⟩
  have hd := hfull.2.2.2 0 (by decide) (by decide)
  simpa using hd

end UtilHpp
